import Mathlib

/-!
Shallow embedding of the DNSServer repository (C++ sources under
`cpp/src/dns_server.h`, `cpp/src/dns_server.cpp`, `cpp/src/main.cpp`).

Bytes are modelled as `Nat` (values produced by the code are always < 256;
where the C++ narrows through `uint8_t` / `uint16_t` casts we write the
corresponding `% 256` / `% 65536` explicitly).  C++ strings are modelled as
`List Nat` of their bytes.  Functions that can hit an out-of-bounds read
(an exception from `PacketReader`, or undefined behaviour from unchecked
`span` indexing in `main.cpp`) return `Except DecodeErr _` / `Option _`.
The two recursive name decoders carry an explicit fuel parameter; the C++
has no such bound, so fuel exhaustion models non-termination of the source.
-/

namespace DNS

/-- Decode failure: buffer overrun (the `std::out_of_range` throw in
`PacketReader`, or the undefined out-of-bounds read in `parseDomainName`),
or fuel exhaustion (modelling non-termination of the unguarded C++
recursion). -/
inductive DecodeErr where
  | overrun
  | fuelExhausted
deriving DecidableEq

/-- Read one byte of a packet, failing when the index is out of range. -/
def byteAt (packet : List Nat) (pos : Nat) : Except DecodeErr Nat :=
  if pos < packet.length then .ok (packet.getD pos 0) else .error .overrun

/-- `dns_packet::PacketReader` from `dns_server.h`: a byte buffer plus a
cursor position. -/
structure PacketReader where
  data : List Nat
  position : Nat
deriving DecidableEq

/-- `PacketReader::readUint8`: throw on overrun, else return the byte at the
cursor and advance by one (`data[position++]`). -/
def readUint8 (r : PacketReader) : Except DecodeErr Nat × PacketReader :=
  if r.position ≥ r.data.length then (.error .overrun, r)
  else (.ok (r.data.getD r.position 0), ⟨r.data, r.position + 1⟩)

/-- `PacketReader::readUint16`: throw when `position + 1 >= data.size()`,
else combine two bytes big-endian (`(data[position] << 8) | data[position+1]`)
and advance by two. -/
def readUint16 (r : PacketReader) : Except DecodeErr Nat × PacketReader :=
  if r.position + 1 ≥ r.data.length then (.error .overrun, r)
  else (.ok (((r.data.getD r.position 0) <<< 8) ||| r.data.getD (r.position + 1) 0),
        ⟨r.data, r.position + 2⟩)

/-- `PacketReader::readBytes(length)`: throw when
`position + length > data.size()`, else return the sub-slice
`data.subspan(position, length)` and advance by `length`. -/
def readBytes (n : Nat) (r : PacketReader) : Except DecodeErr (List Nat) × PacketReader :=
  if r.position + n > r.data.length then (.error .overrun, r)
  else (.ok ((r.data.drop r.position).take n), ⟨r.data, r.position + n⟩)

/-- `std::tolower` in the C locale on a byte value: ASCII uppercase maps to
lowercase, every other byte passes through unchanged. -/
def tolowerByte (c : Nat) : Nat :=
  if 65 ≤ c ∧ c ≤ 90 then c + 32 else c

/-- `toLowercase` from `dns_server.cpp`: byte-wise `std::tolower` over the
whole string. -/
def toLowercase (s : List Nat) : List Nat :=
  s.map tolowerByte

/-- `DNSRecord` from `dns_server.h`: name, type and value are all strings. -/
structure DNSRecord where
  name : List Nat
  type : List Nat
  value : List Nat
deriving DecidableEq

/-- The record a call to `DNSServer::addRecord` actually stores: the name is
lowercased, type and value are kept as given. -/
def normalizeRecord (r : DNSRecord) : DNSRecord :=
  ⟨toLowercase r.name, r.type, r.value⟩

/-- `DNSServer::records`: the `unordered_map<string, vector<DNSRecord>>`,
modelled as a total function from key to bucket (a missing key is an empty
bucket, matching `find` returning `end()` and the query returning `{}`). -/
abbrev DNSServer := List Nat → List DNSRecord

/-- A freshly constructed `DNSServer`: every bucket empty. -/
def emptyServer : DNSServer := fun _ => []

/-- `DNSServer::addRecord`: push the normalized record onto the bucket keyed
by the lowercased name. -/
def addRecord (s : DNSServer) (r : DNSRecord) : DNSServer :=
  fun k => if k = toLowercase r.name then s k ++ [normalizeRecord r] else s k

/-- `DNSServer::query`: lowercase the queried name and return that bucket
(empty when the key is absent). -/
def query (s : DNSServer) (name : List Nat) : List DNSRecord :=
  s (toLowercase name)

/-- `DNSServer::queryByType`: filter `query`'s result by exact type match. -/
def queryByType (s : DNSServer) (name : List Nat) (t : List Nat) : List DNSRecord :=
  (query s name).filter (fun r => r.type == t)

/-- A store built by a sequence of `addRecord` calls starting from the empty
server (the seeding collaborator). -/
def seed (rs : List DNSRecord) : DNSServer :=
  rs.foldl addRecord emptyServer

/-- One length-prefixed label as `encodeDomainName` emits it: the length byte
(`static_cast<uint8_t>(label.size())`) followed by the label bytes. -/
def encodeLabel (label : List Nat) : List Nat :=
  (label.length % 256) :: label

/-- The character loop of `encodeDomainName` from `main.cpp`, with the
pending-label accumulator: on a dot, emit the accumulated label (even when
empty); at the end, emit the final label only when non-empty, then the zero
terminator. -/
def encodeLoop : List Nat → List Nat → List Nat
  | [], label => (if label = [] then [] else encodeLabel label) ++ [0]
  | c :: cs, label =>
    if c = 46 then encodeLabel label ++ encodeLoop cs []
    else encodeLoop cs (label ++ [c])

/-- `encodeDomainName` from `main.cpp`: length-prefixed labels split on `.`,
terminated by a zero-length label. -/
def encodeDomainName (domain : List Nat) : List Nat :=
  encodeLoop domain []

/-- `dns_packet::PacketReader::readDomainName` from `dns_server.cpp`, with
the result accumulator made explicit and a fuel parameter standing for the
(unbounded) C++ recursion.  A compression pointer recurses at the 14-bit
offset with a fresh result string and is name-terminal; its suffix is joined
to a non-empty accumulator with a dot.  A regular label is read via
`readBytes` (bounds-checked) and joined with a dot when the accumulator is
non-empty.  Returns the name bytes and the final cursor position. -/
def readDomainNameAux (packet : List Nat) :
    Nat → List Nat → Nat → Except DecodeErr (List Nat × Nat)
  | _, _, 0 => .error .fuelExhausted
  | pos, acc, fuel + 1 =>
    match byteAt packet pos with
    | .error e => .error e
    | .ok len =>
      if len = 0 then .ok (acc, pos + 1)
      else if len &&& 0xC0 = 0xC0 then
        match byteAt packet (pos + 1) with
        | .error e => .error e
        | .ok lo =>
          match readDomainNameAux packet (((len &&& 0x3F) <<< 8) ||| lo) [] fuel with
          | .error e => .error e
          | .ok (suffix, _) =>
            .ok ((if acc = [] then suffix else acc ++ 46 :: suffix), pos + 2)
      else
        if pos + 1 + len ≤ packet.length then
          readDomainNameAux packet (pos + 1 + len)
            ((if acc = [] then [] else acc ++ [46]) ++ (packet.drop (pos + 1)).take len)
            fuel
        else .error .overrun

/-- `readDomainName` run from a given position with fuel proportional to the
packet (enough for any pointer-free name). -/
def decodeDomainNameAt (packet : List Nat) (pos : Nat) : Except DecodeErr (List Nat) :=
  match readDomainNameAux packet pos [] (packet.length + 1) with
  | .ok (name, _) => .ok name
  | .error e => .error e

/-- `readDomainName` decoding a whole buffer from position 0 (the spec's
`decodeDomainName`). -/
def decodeDomainName (packet : List Nat) : Except DecodeErr (List Nat) :=
  decodeDomainNameAt packet 0

/-- `parseDomainName` from `main.cpp`, same shape as `readDomainName` but:
the pointer suffix is appended with **no** dot separator
(`domainName += parseDomainName(...)`), and the byte accesses are unchecked
`span` indexing in the C++ (undefined behaviour out of range), modelled here
as an overrun error. -/
def parseDomainNameAux (packet : List Nat) :
    Nat → List Nat → Nat → Except DecodeErr (List Nat × Nat)
  | _, _, 0 => .error .fuelExhausted
  | pos, acc, fuel + 1 =>
    match byteAt packet pos with
    | .error e => .error e
    | .ok len =>
      if len = 0 then .ok (acc, pos + 1)
      else if len &&& 0xC0 = 0xC0 then
        match byteAt packet (pos + 1) with
        | .error e => .error e
        | .ok lo =>
          match parseDomainNameAux packet (((len &&& 0x3F) <<< 8) ||| lo) [] fuel with
          | .error e => .error e
          | .ok (suffix, _) => .ok (acc ++ suffix, pos + 2)
      else
        if pos + 1 + len ≤ packet.length then
          parseDomainNameAux packet (pos + 1 + len)
            ((if acc = [] then [] else acc ++ [46]) ++ (packet.drop (pos + 1)).take len)
            fuel
        else .error .overrun

/-- Labels joined by dots: the textual domain name a label list denotes. -/
def joinDots : List (List Nat) → List Nat
  | [] => []
  | [l] => l
  | l :: ls => l ++ 46 :: joinDots ls

/-- The type strings of `dns_server.h` / `main.cpp` as byte lists. -/
def strA : List Nat := [65]

/-- The byte string `NS`. -/
def strNS : List Nat := [78, 83]

/-- The byte string `CNAME`. -/
def strCNAME : List Nat := [67, 78, 65, 77, 69]

/-- The byte string `SOA`. -/
def strSOA : List Nat := [83, 79, 65]

/-- The byte string `PTR`. -/
def strPTR : List Nat := [80, 84, 82]

/-- The byte string `MX`. -/
def strMX : List Nat := [77, 88]

/-- The byte string `TXT`. -/
def strTXT : List Nat := [84, 88, 84]

/-- QTYPE → type string, as the `switch (qtype)` in `createDNSResponse`:
unrecognized numeric QTYPEs default to `A`. -/
def typeStrOfQType (qtype : Nat) : List Nat :=
  if qtype = 1 then strA
  else if qtype = 2 then strNS
  else if qtype = 5 then strCNAME
  else if qtype = 6 then strSOA
  else if qtype = 12 then strPTR
  else if qtype = 15 then strMX
  else if qtype = 16 then strTXT
  else strA

/-- Record-type string → numeric wire type, as the `if`/`else if` chain in the
answer loop of `createDNSResponse` (default `1`, i.e. A). -/
def typeCodeOf (t : List Nat) : Nat :=
  if t = strNS then 2
  else if t = strCNAME then 5
  else if t = strSOA then 6
  else if t = strPTR then 12
  else if t = strMX then 15
  else if t = strTXT then 16
  else 1

/-- Models glibc `inet_pton(AF_INET, s, ...)`: exactly four dot-separated
decimal parts, each 1-3 digits with no leading zero (except `0` itself) and
value at most 255.  Returns the four octets in network order (which is the
order the little-endian byte pushes in `main.cpp` emit them). -/
def inetPton4 (s : List Nat) : Option (List Nat) :=
  let parts := s.splitOn 46
  if parts.length = 4 ∧ parts.all (fun p =>
      p ≠ [] ∧ p.length ≤ 3 ∧ p.all (fun c => 48 ≤ c ∧ c ≤ 57) ∧
      (p.length = 1 ∨ p.headD 0 ≠ 48) ∧
      p.foldl (fun a c => a * 10 + (c - 48)) 0 ≤ 255)
  then some (parts.map (fun p => p.foldl (fun a c => a * 10 + (c - 48)) 0))
  else none

/-- The four RDATA bytes of an A answer.  On an unparsable value the C++
ignores `inet_pton`'s failure and pushes the bytes of an uninitialized
`in_addr` (indeterminate); modelled as zeros — no claim depends on it. -/
def ipv4Bytes (value : List Nat) : List Nat :=
  (inetPton4 value).getD [0, 0, 0, 0]

/-- Models `std::stoi` (base 10, 32-bit `int`): skip leading whitespace, an
optional sign, then digits; `none` models the `invalid_argument` /
`out_of_range` throws. -/
def stoiModel (s : List Nat) : Option Int :=
  let s1 := s.dropWhile (fun c => c = 32 ∨ (9 ≤ c ∧ c ≤ 13))
  let signAndRest : Int × List Nat :=
    match s1 with
    | 43 :: rest => (1, rest)
    | 45 :: rest => (-1, rest)
    | _ => (1, s1)
  let digits := signAndRest.2.takeWhile (fun c => 48 ≤ c ∧ c ≤ 57)
  if digits = [] then none
  else
    let v : Int := signAndRest.1 * (digits.foldl (fun a c => a * 10 + (c - 48)) 0 : Nat)
    if v < -2147483648 ∨ v > 2147483647 then none else some v

/-- MX RDATA from the answer loop: parse `"<priority> <hostname>"` (defaults
priority 10 and hostname = whole value when there is no space or `stoi`
throws; the `int` → `uint16_t` conversion is mod 2^16), then the RDLENGTH
bytes `0x00, uint8_t(2 + name length)`, the priority big-endian and the
encoded hostname. -/
def mxRdata (value : List Nat) : List Nat :=
  let i := value.indexOf 32
  let prioHost : Nat × List Nat :=
    if i < value.length then
      match stoiModel (value.take i) with
      | some p => ((p % 65536).toNat, value.drop (i + 1))
      | none => (10, value)
    else (10, value)
  let enc := encodeDomainName prioHost.2
  [0x00, (2 + enc.length) % 256, (prioHost.1 >>> 8) % 256, prioHost.1 % 256] ++ enc

/-- TXT RDATA from the answer loop: truncate the text to 255 bytes, then push
the RDLENGTH bytes `0x00, uint8_t(text length + 1)`, the one-byte text
length, and the text. -/
def txtRdata (value : List Nat) : List Nat :=
  let v := if value.length > 255 then value.take 255 else value
  [0x00, (v.length + 1) % 256, v.length % 256] ++ v

/-- A 32-bit value as four big-endian bytes. -/
def u32be (n : Nat) : List Nat :=
  [(n >>> 24) % 256, (n >>> 16) % 256, (n >>> 8) % 256, n % 256]

/-- The byte string `ns1.example.com`. -/
def strNs1Example : List Nat :=
  [110, 115, 49, 46, 101, 120, 97, 109, 112, 108, 101, 46, 99, 111, 109]

/-- The byte string `admin.example.com`. -/
def strAdminExample : List Nat :=
  [97, 100, 109, 105, 110, 46, 101, 120, 97, 109, 112, 108, 101, 46, 99, 111, 109]

/-- SOA RDATA from the answer loop: hard-coded primary NS and admin mailbox
plus five fixed 32-bit values, preceded by the two RDLENGTH bytes. -/
def soaRdata : List Nat :=
  let p := encodeDomainName strNs1Example
  let a := encodeDomainName strAdminExample
  let total := p.length + a.length + 20
  [(total >>> 8) % 256, total % 256] ++ p ++ a ++
    u32be 2023091401 ++ u32be 3600 ++ u32be 900 ++ u32be 1209600 ++ u32be 300

/-- RDLENGTH and RDATA bytes for one answer, by numeric type code, following
the branch order of the C++ answer loop. -/
def rdataBytes (code : Nat) (value : List Nat) : List Nat :=
  if code = 1 then [0x00, 0x04] ++ ipv4Bytes value
  else if code = 2 ∨ code = 5 ∨ code = 12 then
    let enc := encodeDomainName value
    [(enc.length >>> 8) % 256, enc.length % 256] ++ enc
  else if code = 15 then mxRdata value
  else if code = 16 then txtRdata value
  else if code = 6 then soaRdata
  else [0x00, value.length % 256] ++ value

/-- All bytes one iteration of the answer loop appends for a record: the
compression pointer `C0 0C` to the question name, the type code, class IN,
the fixed TTL 300, then RDLENGTH/RDATA. -/
def answerBytes (r : DNSRecord) : List Nat :=
  let code := typeCodeOf r.type
  [0xC0, 0x0C, (code >>> 8) % 256, code % 256, 0x00, 0x01, 0x00, 0x00, 0x01, 0x2C] ++
    rdataBytes code r.value

/-- Question decoding of `createDNSResponse`: parse the name starting at byte
12 with `parseDomainName`, then read QTYPE from the next two bytes (unchecked
`span` indexing in the C++, hence the bounds guard).  Returns the name, the
QTYPE and the offset of the QTYPE field.  The fuel covers every terminating
run of the C++ recursion. -/
def decodeQuestion (q : List Nat) : Option (List Nat × Nat × Nat) :=
  match parseDomainNameAux q 12 [] ((q.length + 1) * (q.length + 1)) with
  | .error _ => none
  | .ok (name, offset) =>
    if offset + 1 < q.length then
      some (name, ((q.getD offset 0) <<< 8) ||| q.getD (offset + 1) 0, offset)
    else none

/-- The record matching of `createDNSResponse`: QTYPE 255 (ANY) fetches the
whole bucket, anything else is mapped to a type string and filtered. -/
def matchedRecords (server : DNSServer) (name : List Nat) (qtype : Nat) : List DNSRecord :=
  if qtype = 255 then query server name
  else queryByType server name (typeStrOfQType qtype)

/-- The truncation step at the end of `createDNSResponse`: over 512 bytes,
set the TC bit (`response[2] |= 0x02`) and resize to exactly 512; otherwise
leave the buffer untouched. -/
def applyTruncation (buf : List Nat) : List Nat :=
  if buf.length > 512 then ((buf.set 2 ((buf.getD 2 0) ||| 0x02)).take 512) else buf

/-- The response-assembly part of `createDNSResponse`, after the question has
been decoded.  The response starts as a byte copy of the query; byte 2 is
overwritten with `0x80` and byte 3 with `0x00`; ANCOUNT is written as two
bytes of `uint16_t(records.size())`; RCODE 3 is OR-ed into byte 3 when both
the matched records and the full bucket are empty; one answer per matched
record is appended; finally the truncation step runs. -/
def buildResponse (q : List Nat) (server : DNSServer) (domainName : List Nat)
    (qtype : Nat) : List Nat :=
  let r1 := (q.set 2 0x80).set 3 0x00
  let records := matchedRecords server domainName qtype
  let answerCount := records.length % 65536
  let r2 := (r1.set 6 (answerCount >>> 8)).set 7 (answerCount &&& 0xFF)
  let r3 := if records = [] ∧ query server domainName = []
            then r2.set 3 ((r2.getD 3 0) ||| 0x03) else r2
  applyTruncation (r3 ++ (records.map answerBytes).flatten)

/-- `createDNSResponse` from `main.cpp`: `none` models the undefined
behaviour of writing header bytes into a packet shorter than 4 bytes, of the
unchecked reads during question decoding, and non-termination of the
unguarded pointer recursion. -/
def createDNSResponse (q : List Nat) (server : DNSServer) : Option (List Nat) :=
  if q.length < 4 then none
  else
    match decodeQuestion q with
    | none => none
    | some (domainName, qtype, _) => some (buildResponse q server domainName qtype)

/-- A self-referential compression pointer: a 12-byte header followed by
`C0 0C`, a pointer whose 14-bit offset is 12 — the position of the pointer
itself. -/
def selfRefPacket : List Nat := [0, 0, 0, 0, 0, 0, 0, 0, 0, 0, 0, 0, 0xC0, 0x0C]

theorem getD_append_lt (l₁ l₂ : List Nat) (i d : Nat) (h : i < l₁.length) :
    (l₁ ++ l₂).getD i d = l₁.getD i d := by
  induction l₁ generalizing i with
  | nil => simp at h
  | cons a t ih =>
    cases i with
    | zero => rfl
    | succ j => simpa using ih j (by simpa using h)

theorem getD_set_self (l : List Nat) (i v d : Nat) (h : i < l.length) :
    (l.set i v).getD i d = v := by
  induction l generalizing i with
  | nil => simp at h
  | cons a t ih =>
    cases i with
    | zero => rfl
    | succ j => simpa using ih j (by simpa using h)

theorem getD_set_of_ne (l : List Nat) (i j v d : Nat) (h : i ≠ j) :
    (l.set i v).getD j d = l.getD j d := by
  induction l generalizing i j with
  | nil => rfl
  | cons a t ih =>
    cases i with
    | zero => cases j with
      | zero => exact absurd rfl h
      | succ j => rfl
    | succ i => cases j with
      | zero => rfl
      | succ j => simpa using ih i j (by omega)

theorem getD_take_lt (l : List Nat) (n j d : Nat) (h : j < n) :
    (l.take n).getD j d = l.getD j d := by
  induction l generalizing n j with
  | nil => simp
  | cons a t ih =>
    cases n with
    | zero => omega
    | succ m =>
      cases j with
      | zero => rfl
      | succ j => simpa using ih m j (by omega)

/-- C2: the spec requires decoding to fail with a decode error when pointer
resolution revisits an offset or exceeds a depth bound, but neither
`readDomainName` nor `parseDomainName` has any such guard: on a packet whose
name is a pointer to its own offset both decoders recurse forever.  In the
fuel-indexed model they exhaust any amount of fuel instead of ever returning
a value or a decode error. -/
theorem c2_self_pointer_never_terminates (fuel : Nat) :
    readDomainNameAux selfRefPacket 12 [] fuel = Except.error DecodeErr.fuelExhausted ∧
    parseDomainNameAux selfRefPacket 12 [] fuel = Except.error DecodeErr.fuelExhausted := by
  induction fuel with
  | zero => exact ⟨rfl, rfl⟩
  | succ f ih =>
    have step1 : readDomainNameAux selfRefPacket 12 [] (f + 1) =
        (match readDomainNameAux selfRefPacket 12 [] f with
         | .error e => .error e
         | .ok (suffix, _) => .ok (suffix, 14)) := rfl
    have step2 : parseDomainNameAux selfRefPacket 12 [] (f + 1) =
        (match parseDomainNameAux selfRefPacket 12 [] f with
         | .error e => .error e
         | .ok (suffix, _) => .ok (suffix, 14)) := rfl
    rw [step1, step2, ih.1, ih.2]
    exact ⟨rfl, rfl⟩

/-- C3: `readUint8` and `readUint16` fail with a decode error exactly when
the 1 or 2 bytes to be read would exceed the buffer length, and otherwise
return the big-endian value and advance the position by 1 or 2; `readBytes n`
fails exactly when fewer than `n` bytes remain, and otherwise returns a
sub-slice of length `n` and advances the position by `n`. -/
theorem c3_reader_primitives (r : PacketReader) (n : Nat) :
    ((readUint8 r).1 = Except.error DecodeErr.overrun ↔ r.data.length < r.position + 1) ∧
    (r.position + 1 ≤ r.data.length →
      readUint8 r = (Except.ok (r.data.getD r.position 0), ⟨r.data, r.position + 1⟩)) ∧
    ((readUint16 r).1 = Except.error DecodeErr.overrun ↔ r.data.length < r.position + 2) ∧
    (r.position + 2 ≤ r.data.length →
      readUint16 r =
        (Except.ok (((r.data.getD r.position 0) <<< 8) ||| r.data.getD (r.position + 1) 0),
         ⟨r.data, r.position + 2⟩)) ∧
    ((readBytes n r).1 = Except.error DecodeErr.overrun ↔ r.data.length < r.position + n) ∧
    (r.position + n ≤ r.data.length →
      ∃ bs, readBytes n r = (Except.ok bs, ⟨r.data, r.position + n⟩) ∧ bs.length = n) := by
  refine ⟨?_, ?_, ?_, ?_, ?_, ?_⟩
  · unfold readUint8; split
    · simp; omega
    · simp; omega
  · intro h; unfold readUint8; rw [if_neg (by omega)]
  · unfold readUint16; split
    · simp; omega
    · simp; omega
  · intro h; unfold readUint16; rw [if_neg (by omega)]
  · unfold readBytes; split
    · simp; omega
    · simp; omega
  · intro h; unfold readBytes; rw [if_neg (by omega)]
    exact ⟨_, rfl, by simp [List.length_take, List.length_drop]; omega⟩

/-- Witness for C3 at a concrete reader over the buffer `[1, 2, 3]`. -/
theorem c3_reader_primitives_witness :
    readUint8 ⟨[1, 2, 3], 0⟩ = (Except.ok 1, ⟨[1, 2, 3], 1⟩) ∧
    readUint16 ⟨[1, 2, 3], 0⟩ = (Except.ok ((1 <<< 8) ||| 2), ⟨[1, 2, 3], 2⟩) ∧
    ∃ bs, readBytes 2 ⟨[1, 2, 3], 0⟩ = (Except.ok bs, ⟨[1, 2, 3], 2⟩) ∧ bs.length = 2 :=
  ⟨(c3_reader_primitives ⟨[1, 2, 3], 0⟩ 2).2.1 (by decide),
   (c3_reader_primitives ⟨[1, 2, 3], 0⟩ 2).2.2.2.1 (by decide),
   (c3_reader_primitives ⟨[1, 2, 3], 0⟩ 2).2.2.2.2.2 (by decide)⟩

/-- C10: a failing `readUint8`, `readUint16` or `readBytes` leaves the
reader exactly as it was — the error is raised before the position is
advanced. -/
theorem c10_failed_read_preserves_state (r : PacketReader) (n : Nat) :
    (∀ e, (readUint8 r).1 = Except.error e → (readUint8 r).2 = r) ∧
    (∀ e, (readUint16 r).1 = Except.error e → (readUint16 r).2 = r) ∧
    (∀ e, (readBytes n r).1 = Except.error e → (readBytes n r).2 = r) := by
  refine ⟨?_, ?_, ?_⟩ <;> intro e h
  · by_cases hc : r.position ≥ r.data.length
    · simp [readUint8, hc]
    · simp [readUint8, hc] at h
  · by_cases hc : r.position + 1 ≥ r.data.length
    · simp [readUint16, hc]
    · simp [readUint16, hc] at h
  · by_cases hc : r.position + n > r.data.length
    · simp [readBytes, hc]
    · simp [readBytes, hc] at h

/-- Witness for C10 at concrete failing readers. -/
theorem c10_failed_read_preserves_state_witness :
    (readUint8 ⟨[], 0⟩).2 = ⟨[], 0⟩ ∧
    (readUint16 ⟨[5], 0⟩).2 = ⟨[5], 0⟩ ∧
    (readBytes 2 ⟨[5], 0⟩).2 = ⟨[5], 0⟩ :=
  ⟨(c10_failed_read_preserves_state ⟨[], 0⟩ 2).1 .overrun rfl,
   (c10_failed_read_preserves_state ⟨[5], 0⟩ 2).2.1 .overrun rfl,
   (c10_failed_read_preserves_state ⟨[5], 0⟩ 2).2.2 .overrun rfl⟩

/-- C5: when the assembled response exceeds 512 bytes the truncation step
yields a buffer of exactly 512 bytes with the TC bit (bit 1 of byte 2) set;
when it is at most 512 bytes the buffer is returned unmodified, so TC stays
unset when it was unset. -/
theorem c5_truncation (buf : List Nat) :
    (buf.length > 512 →
      (applyTruncation buf).length = 512 ∧
      ((applyTruncation buf).getD 2 0).testBit 1 = true) ∧
    (buf.length ≤ 512 →
      applyTruncation buf = buf ∧
      (((buf.getD 2 0).testBit 1 = false) →
        ((applyTruncation buf).getD 2 0).testBit 1 = false)) := by
  constructor
  · intro h
    unfold applyTruncation
    rw [if_pos h]
    constructor
    · simp [List.length_take]; omega
    · rw [getD_take_lt _ _ _ _ (by omega), getD_set_self _ _ _ _ (by omega)]
      have h2 : Nat.testBit 2 1 = true := by decide
      rw [Nat.testBit_or, h2, Bool.or_true]
  · intro h
    have he : applyTruncation buf = buf := by unfold applyTruncation; rw [if_neg (by omega)]
    exact ⟨he, fun hb => by rw [he]; exact hb⟩

/-- Witness for C5 at a 513-byte all-zero buffer and a short buffer. -/
theorem c5_truncation_witness :
    ((applyTruncation (List.replicate 513 0)).length = 512 ∧
      ((applyTruncation (List.replicate 513 0)).getD 2 0).testBit 1 = true) ∧
    applyTruncation [0, 0, 0] = [0, 0, 0] :=
  ⟨(c5_truncation (List.replicate 513 0)).1 (by rw [List.length_replicate]; omega),
   ((c5_truncation [0, 0, 0]).2 (by decide)).1⟩

theorem query_addRecord (s : DNSServer) (r : DNSRecord) (n : List Nat) :
    query (addRecord s r) n =
      if toLowercase r.name = toLowercase n then query s n ++ [normalizeRecord r]
      else query s n := by
  unfold query addRecord
  by_cases h : toLowercase r.name = toLowercase n
  · rw [if_pos h, if_pos h.symm]
  · rw [if_neg h, if_neg (fun hh => h hh.symm)]

theorem query_foldl (rs : List DNSRecord) (s : DNSServer) (n : List Nat) :
    query (rs.foldl addRecord s) n =
      query s n ++
        (rs.filter (fun r => toLowercase r.name == toLowercase n)).map normalizeRecord := by
  induction rs generalizing s with
  | nil => simp
  | cons r rs ih =>
    simp only [List.foldl_cons, List.filter_cons]
    rw [ih, query_addRecord]
    by_cases h : toLowercase r.name = toLowercase n
    · rw [if_pos h]
      simp [h, List.append_assoc]
    · rw [if_neg h]
      simp [h]

/-- C8: `query` on a store built by any sequence of insertions returns
exactly the (normalized: owner lowercased, type and value untouched) records
whose owner matches the queried name case-insensitively, in insertion order;
in particular an unknown name yields the empty list, indistinguishable from
a name with zero records, and no lookup can fail. -/
theorem c8_query_inserted_in_order (rs : List DNSRecord) (n : List Nat) :
    query (seed rs) n =
      (rs.filter (fun r => toLowercase r.name == toLowercase n)).map normalizeRecord := by
  unfold seed
  rw [query_foldl]
  simp [query, emptyServer]

/-- Records equal up to the casing of their owner names (same types, same
values, pointwise). -/
def sameUpToCase : List DNSRecord → List DNSRecord → Bool
  | [], [] => true
  | r :: rs, r2 :: rs2 =>
      (toLowercase r.name == toLowercase r2.name) && (r.type == r2.type) &&
        (r.value == r2.value) && sameUpToCase rs rs2
  | _, _ => false

/-- C6: queries are case-insensitive — two stores seeded with the same
records up to owner-name casing, queried with two casings of the same name,
return the same record sequence.  Case folding is the byte-wise ASCII
lowercasing `toLowercase` (non-ASCII bytes pass through via `tolowerByte`). -/
theorem c6_query_case_insensitive (rs rs2 : List DNSRecord) (n1 n2 : List Nat)
    (hrs : sameUpToCase rs rs2 = true) (hn : toLowercase n1 = toLowercase n2) :
    query (seed rs) n1 = query (seed rs2) n2 := by
  unfold seed
  rw [query_foldl, query_foldl]
  simp only [query, emptyServer, List.nil_append]
  induction rs generalizing rs2 with
  | nil =>
    cases rs2 with
    | nil => rfl
    | cons r2 t2 => simp [sameUpToCase] at hrs
  | cons r rs ih =>
    cases rs2 with
    | nil => simp [sameUpToCase] at hrs
    | cons r2 t2 =>
      simp only [sameUpToCase, Bool.and_eq_true, beq_iff_eq] at hrs
      obtain ⟨⟨⟨h1, h2⟩, h3⟩, h4⟩ := hrs
      simp only [List.filter_cons]
      by_cases hc : toLowercase r.name = toLowercase n1
      · rw [if_pos (by simp [hc]), if_pos (by simp [← h1, ← hn, hc])]
        simp only [List.map_cons]
        rw [ih t2 h4]
        congr 1
        simp [normalizeRecord, h1, h2, h3]
      · rw [if_neg (by simp [hc]), if_neg (by simp [← h1, ← hn, hc])]
        exact ih t2 h4

/-- Witness for C6: a record seeded as `ExAmPlE` in one store and
`example` in the other, queried as `EXAMPLE` and `example`. -/
theorem c6_query_case_insensitive_witness :
    query (seed [⟨[69, 120, 65, 109, 80, 108, 69], strA, [49]⟩]) [69, 88, 65, 77, 80, 76, 69] =
    query (seed [⟨[101, 120, 97, 109, 112, 108, 101], strA, [49]⟩]) [101, 120, 97, 109, 112, 108, 101] :=
  c6_query_case_insensitive _ _ _ _ (by decide) (by decide)

set_option maxRecDepth 4096 in
/-- C9 counterexample: for a TXT record whose text is 255 bytes long the
claim demands RDLENGTH `min(255, 255) + 1 = 256`, but the code pushes the
length through a `uint8_t` cast and the two-byte field reads 0. -/
theorem c9_txt_rdlength_counterexample :
    ((answerBytes ⟨[101], strTXT, List.replicate 255 97⟩).getD 10 0) * 256 +
      (answerBytes ⟨[101], strTXT, List.replicate 255 97⟩).getD 11 0 ≠
      min (List.replicate 255 97 : List Nat).length 255 + 1 := by
  decide

/-- C9 amended: a TXT answer is the fixed 10 bytes (pointer, type 16, class
IN, TTL 300) followed by RDLENGTH `(min(L, 255) + 1) mod 256` (the high byte
is the literal 0), the one-byte text length `min(L, 255)`, and the text
truncated to 255 bytes.  RDLENGTH equals `min(L, 255) + 1` only when
`L < 255`; at `L ≥ 255` the `uint8_t` cast wraps it to 0. -/
theorem c9_txt_answer_layout (name v : List Nat) :
    answerBytes ⟨name, strTXT, v⟩ =
      [0xC0, 0x0C, 0, 16, 0, 1, 0, 0, 1, 0x2C, 0,
        (min v.length 255 + 1) % 256, min v.length 255] ++ v.take 255 := by
  have hcode : typeCodeOf strTXT = 16 := by decide
  simp only [answerBytes, hcode, rdataBytes, txtRdata]
  norm_num
  by_cases h : v.length > 255
  · rw [if_pos h]
    simp [List.length_take, Nat.min_eq_left (by omega : 255 ≤ v.length),
      Nat.min_eq_right (by omega : 255 ≤ v.length)]
  · rw [if_neg h]
    have h1 : v.take 255 = v := List.take_of_length_le (by omega)
    have h2 : min v.length 255 = v.length := Nat.min_eq_left (by omega)
    simp [h1, h2, Nat.mod_eq_of_lt (by omega : v.length < 256)]

theorem parse_ok_pos_lt (q : List Nat) (pos : Nat) (acc : List Nat) (fuel : Nat)
    (x : List Nat × Nat) (h : parseDomainNameAux q pos acc fuel = .ok x) :
    pos < q.length := by
  cases fuel with
  | zero => simp [parseDomainNameAux] at h
  | succ f =>
    by_cases hp : pos < q.length
    · exact hp
    · simp [parseDomainNameAux, byteAt, hp] at h

theorem decodeQuestion_length (q : List Nat) (t : List Nat × Nat × Nat)
    (hd : decodeQuestion q = some t) : 12 < q.length := by
  unfold decodeQuestion at hd
  cases hp : parseDomainNameAux q 12 [] ((q.length + 1) * (q.length + 1)) with
  | error e => rw [hp] at hd; simp at hd
  | ok x => exact parse_ok_pos_lt q 12 [] _ x hp

theorem createDNSResponse_some (q : List Nat) (server : DNSServer)
    (name : List Nat) (qtype off : Nat)
    (hd : decodeQuestion q = some (name, qtype, off)) :
    createDNSResponse q server = some (buildResponse q server name qtype) := by
  have hlen := decodeQuestion_length q _ hd
  unfold createDNSResponse
  rw [if_neg (by omega), hd]

/-- Header bytes of `buildResponse`: bytes other than 2, 3, 6, 7 are copied
from the query; byte 2 is `0x80`, with the TC bit possibly OR-ed in by
truncation; byte 3 is the RCODE decision; bytes 6 and 7 are the ANCOUNT of
`uint16_t(records.size())`. -/
theorem buildResponse_header (q : List Nat) (server : DNSServer)
    (name : List Nat) (qtype : Nat) (hlen : 12 < q.length) :
    (∀ j, j < 12 → j ≠ 2 → j ≠ 3 → j ≠ 6 → j ≠ 7 →
      (buildResponse q server name qtype).getD j 0 = q.getD j 0) ∧
    ((buildResponse q server name qtype).getD 2 0 = 0x80 ∨
      (buildResponse q server name qtype).getD 2 0 = 0x82) ∧
    ((buildResponse q server name qtype).getD 3 0 =
      if matchedRecords server name qtype = [] ∧ query server name = [] then 3 else 0) ∧
    (buildResponse q server name qtype).getD 6 0 =
      ((matchedRecords server name qtype).length % 65536) >>> 8 ∧
    (buildResponse q server name qtype).getD 7 0 =
      ((matchedRecords server name qtype).length % 65536) &&& 0xFF := by
  simp only [buildResponse]
  set records := matchedRecords server name qtype with hrecords
  set ac := records.length % 65536 with hac
  set r2 := (((q.set 2 0x80).set 3 0x00).set 6 (ac >>> 8)).set 7 (ac &&& 0xFF) with hr2
  set r3 := if records = [] ∧ query server name = []
            then r2.set 3 ((r2.getD 3 0) ||| 0x03) else r2 with hr3
  have hr2len : r2.length = q.length := by simp [hr2]
  have hr3len : r3.length = q.length := by
    rw [hr3]; split <;> simp [hr2len]
  have hq2 : 2 < q.length := by omega
  have hq3 : 3 < q.length := by omega
  have hq6 : 6 < q.length := by omega
  have hq7 : 7 < q.length := by omega
  have hr2get2 : r2.getD 2 0 = 0x80 := by
    rw [hr2, getD_set_of_ne _ _ _ _ _ (by omega), getD_set_of_ne _ _ _ _ _ (by omega),
      getD_set_of_ne _ _ _ _ _ (by omega), getD_set_self _ _ _ _ hq2]
  have hr2get3 : r2.getD 3 0 = 0 := by
    rw [hr2, getD_set_of_ne _ _ _ _ _ (by omega), getD_set_of_ne _ _ _ _ _ (by omega),
      getD_set_self _ _ _ _ (by simpa using hq3)]
  have hr2get6 : r2.getD 6 0 = ac >>> 8 := by
    rw [hr2, getD_set_of_ne _ _ _ _ _ (by omega),
      getD_set_self _ _ _ _ (by simpa using hq6)]
  have hr2get7 : r2.getD 7 0 = ac &&& 0xFF := by
    rw [hr2, getD_set_self _ _ _ _ (by simpa using hq7)]
  have hr2getj : ∀ j, j ≠ 2 → j ≠ 3 → j ≠ 6 → j ≠ 7 → r2.getD j 0 = q.getD j 0 := by
    intro j h2 h3 h6 h7
    rw [hr2, getD_set_of_ne _ _ _ _ _ (fun h => h7 h.symm),
      getD_set_of_ne _ _ _ _ _ (fun h => h6 h.symm),
      getD_set_of_ne _ _ _ _ _ (fun h => h3 h.symm),
      getD_set_of_ne _ _ _ _ _ (fun h => h2 h.symm)]
  have hr3get2 : r3.getD 2 0 = 0x80 := by
    by_cases hc : records = [] ∧ query server name = []
    · rw [hr3, if_pos hc, getD_set_of_ne _ _ _ _ _ (by omega)]; exact hr2get2
    · rw [hr3, if_neg hc]; exact hr2get2
  have hr3get3 : r3.getD 3 0 =
      if records = [] ∧ query server name = [] then 3 else 0 := by
    by_cases hc : records = [] ∧ query server name = []
    · rw [hr3, if_pos hc, if_pos hc,
        getD_set_self _ _ _ _ (by rw [hr2len]; omega), hr2get3]
      decide
    · rw [hr3, if_neg hc, if_neg hc]; exact hr2get3
  have hr3get6 : r3.getD 6 0 = ac >>> 8 := by
    by_cases hc : records = [] ∧ query server name = []
    · rw [hr3, if_pos hc, getD_set_of_ne _ _ _ _ _ (by omega)]; exact hr2get6
    · rw [hr3, if_neg hc]; exact hr2get6
  have hr3get7 : r3.getD 7 0 = ac &&& 0xFF := by
    by_cases hc : records = [] ∧ query server name = []
    · rw [hr3, if_pos hc, getD_set_of_ne _ _ _ _ _ (by omega)]; exact hr2get7
    · rw [hr3, if_neg hc]; exact hr2get7
  have hr3getj : ∀ j, j ≠ 2 → j ≠ 3 → j ≠ 6 → j ≠ 7 → r3.getD j 0 = q.getD j 0 := by
    intro j h2 h3 h6 h7
    by_cases hc : records = [] ∧ query server name = []
    · rw [hr3, if_pos hc, getD_set_of_ne _ _ _ _ _ (fun h => h3 h.symm)]
      exact hr2getj j h2 h3 h6 h7
    · rw [hr3, if_neg hc]; exact hr2getj j h2 h3 h6 h7
  set full := r3 ++ (records.map answerBytes).flatten with hfull
  have hfull_len : q.length ≤ full.length := by
    rw [hfull]; simp [hr3len]
  have hfull_get : ∀ j, j < q.length → full.getD j 0 = r3.getD j 0 := by
    intro j hj
    rw [hfull]; exact getD_append_lt _ _ _ _ (by omega)
  have happ_ne2 : ∀ j, j < 12 → j ≠ 2 → (applyTruncation full).getD j 0 = full.getD j 0 := by
    intro j hj hj2
    unfold applyTruncation; split
    · rw [getD_take_lt _ _ _ _ (by omega), getD_set_of_ne _ _ _ _ _ (fun h => hj2 h.symm)]
    · rfl
  have happ2 : (applyTruncation full).getD 2 0 = full.getD 2 0 ∨
      (applyTruncation full).getD 2 0 = (full.getD 2 0) ||| 2 := by
    unfold applyTruncation; split
    · right
      rw [getD_take_lt _ _ _ _ (by omega), getD_set_self _ _ _ _ (by omega)]
    · left; rfl
  refine ⟨?_, ?_, ?_, ?_, ?_⟩
  · intro j hj h2 h3 h6 h7
    rw [happ_ne2 j hj h2, hfull_get j (by omega), hr3getj j h2 h3 h6 h7]
  · rcases happ2 with h | h
    · left; rw [h, hfull_get 2 (by omega), hr3get2]
    · right; rw [h, hfull_get 2 (by omega), hr3get2]; decide
  · rw [happ_ne2 3 (by omega) (by omega), hfull_get 3 (by omega), hr3get3]
  · rw [happ_ne2 6 (by omega) (by omega), hfull_get 6 (by omega), hr3get6]
  · rw [happ_ne2 7 (by omega) (by omega), hfull_get 7 (by omega), hr3get7]

/-- C1: for every decoded query, the RCODE nibble of the response is
NXDOMAIN (3) exactly when both the matched record sequence and the whole
bucket for the question's name are empty; a name that exists in the store
but lacks the queried type yields RCODE 0 with ANCOUNT bytes 0. -/
theorem c1_rcode_nxdomain_iff (q : List Nat) (server : DNSServer)
    (name : List Nat) (qtype off : Nat) (resp : List Nat)
    (hd : decodeQuestion q = some (name, qtype, off))
    (hr : createDNSResponse q server = some resp) :
    ((resp.getD 3 0) &&& 0x0F = 3 ↔
      matchedRecords server name qtype = [] ∧ query server name = []) ∧
    (query server name ≠ [] → matchedRecords server name qtype = [] →
      (resp.getD 3 0) &&& 0x0F = 0 ∧ resp.getD 6 0 = 0 ∧ resp.getD 7 0 = 0) := by
  have hlen := decodeQuestion_length q _ hd
  rw [createDNSResponse_some q server name qtype off hd] at hr
  have hresp : resp = buildResponse q server name qtype := (Option.some.inj hr).symm
  obtain ⟨-, -, h3, h6, h7⟩ := buildResponse_header q server name qtype hlen
  constructor
  · rw [hresp, h3]
    by_cases hc : matchedRecords server name qtype = [] ∧ query server name = []
    · rw [if_pos hc]
      exact ⟨fun _ => hc, fun _ => by decide⟩
    · rw [if_neg hc]
      exact ⟨fun h => absurd h (by decide), fun h => absurd h hc⟩
  · intro hq hm
    have hc : ¬(matchedRecords server name qtype = [] ∧ query server name = []) := by
      intro h; exact hq h.2
    refine ⟨by rw [hresp, h3, if_neg hc]; decide, ?_, ?_⟩
    · rw [hresp, h6, hm]; decide
    · rw [hresp, h7, hm]; decide

/-- A concrete 19-byte query: ID `0x1234`, opcode 1, QDCOUNT 1, question
`a` / QTYPE A / QCLASS IN. -/
def exampleQuery : List Nat :=
  [18, 52, 8, 0, 0, 1, 0, 0, 0, 0, 0, 0, 1, 97, 0, 0, 1, 0, 1]

/-- Witness for C1: against an empty store, the query for `a` gets RCODE 3. -/
theorem c1_rcode_nxdomain_iff_witness :
    (([18, 52, 128, 3, 0, 1, 0, 0, 0, 0, 0, 0, 1, 97, 0, 0, 1, 0, 1] : List Nat).getD 3 0)
      &&& 0x0F = 3 :=
  (c1_rcode_nxdomain_iff exampleQuery emptyServer [97] 1 15 _
    (by decide) (by decide)).1.mpr ⟨by decide, by decide⟩

/-- C4 counterexample: the claim says the opcode is preserved from the
query, but `createDNSResponse` overwrites byte 2 with `0x80` wholesale:
a query with opcode 1 gets a response with opcode 0. -/
theorem c4_opcode_counterexample :
    ((((createDNSResponse exampleQuery emptyServer).getD []).getD 2 0) >>> 3) &&& 0x0F ≠
      ((exampleQuery.getD 2 0) >>> 3) &&& 0x0F := by
  decide

/-- C4 amended: for every decoded query the response header is the query's
12-byte header except that byte 2 is overwritten wholesale with `0x80` — QR
set to 1 but the opcode NOT preserved (cleared to 0, together with AA/TC/RD;
TC may be re-set to give `0x82` by truncation) — byte 3 is cleared and then
holds the RCODE (0 or 3), and ANCOUNT is the matched-record count mod 2^16. -/
theorem c4_header_amended (q : List Nat) (server : DNSServer)
    (name : List Nat) (qtype off : Nat) (resp : List Nat)
    (hd : decodeQuestion q = some (name, qtype, off))
    (hr : createDNSResponse q server = some resp) :
    (∀ j, j < 12 → j ≠ 2 → j ≠ 3 → j ≠ 6 → j ≠ 7 → resp.getD j 0 = q.getD j 0) ∧
    (resp.getD 2 0 = 0x80 ∨ resp.getD 2 0 = 0x82) ∧
    (resp.getD 3 0 = 0 ∨ resp.getD 3 0 = 3) ∧
    resp.getD 6 0 = ((matchedRecords server name qtype).length % 65536) >>> 8 ∧
    resp.getD 7 0 = ((matchedRecords server name qtype).length % 65536) &&& 0xFF := by
  have hlen := decodeQuestion_length q _ hd
  rw [createDNSResponse_some q server name qtype off hd] at hr
  have hresp : resp = buildResponse q server name qtype := (Option.some.inj hr).symm
  obtain ⟨hj, h2, h3, h6, h7⟩ := buildResponse_header q server name qtype hlen
  subst hresp
  refine ⟨hj, h2, ?_, h6, h7⟩
  rw [h3]
  by_cases hc : matchedRecords server name qtype = [] ∧ query server name = []
  · rw [if_pos hc]; right; rfl
  · rw [if_neg hc]; left; rfl

/-- Witness for C4 amended at the concrete query and the empty store: the
ID byte is preserved. -/
theorem c4_header_amended_witness :
    ([18, 52, 128, 3, 0, 1, 0, 0, 0, 0, 0, 0, 1, 97, 0, 0, 1, 0, 1] : List Nat).getD 0 0 =
      exampleQuery.getD 0 0 :=
  (c4_header_amended exampleQuery emptyServer [97] 1 15 _
    (by decide) (by decide)).1 0 (by decide) (by decide) (by decide) (by decide) (by decide)

theorem getD_append_self (pre : List Nat) (x : Nat) (rest : List Nat) (d : Nat) :
    (pre ++ x :: rest).getD pre.length d = x := by
  induction pre with
  | nil => rfl
  | cons a t ih => simpa using ih

theorem land192_eq_zero (n : Nat) (h : n ≤ 63) : n &&& 192 = 0 := by
  interval_cases n <;> decide

theorem encodeLoop_append (l rest acc : List Nat) (h : 46 ∉ l) :
    encodeLoop (l ++ rest) acc = encodeLoop rest (acc ++ l) := by
  induction l generalizing acc with
  | nil => simp
  | cons c t ih =>
    have hc : c ≠ 46 := fun hc => h (hc ▸ List.mem_cons_self c t)
    have ht : 46 ∉ t := fun hm => h (List.mem_cons_of_mem c hm)
    show (if c = 46 then _ else encodeLoop (t ++ rest) (acc ++ [c])) = _
    rw [if_neg hc, ih _ ht]
    simp

theorem encode_joinDots (labels : List (List Nat))
    (h : ∀ l ∈ labels, l ≠ [] ∧ 46 ∉ l) :
    encodeDomainName (joinDots labels) = (labels.map encodeLabel).flatten ++ [0] := by
  induction labels with
  | nil => rfl
  | cons l ls ih =>
    obtain ⟨hl, hl46⟩ := h l (List.mem_cons_self l ls)
    cases ls with
    | nil =>
      show encodeLoop l [] = _
      have h0 : encodeLoop l [] = encodeLoop (l ++ []) [] := by rw [List.append_nil]
      rw [h0, encodeLoop_append _ _ _ hl46]
      simp [encodeLoop, hl]
    | cons l2 ls2 =>
      have hjoin : joinDots (l :: l2 :: ls2) = l ++ 46 :: joinDots (l2 :: ls2) := rfl
      unfold encodeDomainName at ih ⊢
      rw [hjoin, encodeLoop_append _ _ _ hl46]
      show encodeLabel ([] ++ l) ++ encodeLoop (joinDots (l2 :: ls2)) [] = _
      rw [List.nil_append, ih (fun x hx => h x (List.mem_cons_of_mem l hx))]
      simp

theorem decode_blocks (labels : List (List Nat)) (pre post acc : List Nat) (fuel : Nat)
    (hv : ∀ l ∈ labels, l ≠ [] ∧ l.length ≤ 63)
    (hfuel : labels.length + 1 ≤ fuel) :
    readDomainNameAux (pre ++ ((labels.map encodeLabel).flatten ++ (0 :: post)))
        pre.length acc fuel =
      .ok (labels.foldl (fun a l => (if a = [] then [] else a ++ [46]) ++ l) acc,
        pre.length + ((labels.map encodeLabel).flatten).length + 1) := by
  induction labels generalizing pre acc fuel with
  | nil =>
    cases fuel with
    | zero => omega
    | succ f =>
      have hb : byteAt (pre ++ 0 :: post) pre.length = .ok 0 := by
        unfold byteAt
        rw [if_pos (by simp [List.length_append]), getD_append_self]
      show readDomainNameAux (pre ++ 0 :: post) pre.length acc (f + 1) =
        .ok (acc, pre.length + 1)
      simp [readDomainNameAux, hb]
  | cons l ls ih =>
    obtain ⟨hl, hl63⟩ := hv l (List.mem_cons_self l ls)
    have hmod : l.length % 256 = l.length := Nat.mod_eq_of_lt (by omega)
    cases fuel with
    | zero => omega
    | succ f =>
      set rest := (ls.map encodeLabel).flatten with hrest
      have hbuf : pre ++ (((l :: ls).map encodeLabel).flatten ++ (0 :: post)) =
          pre ++ (l.length % 256) :: (l ++ (rest ++ (0 :: post))) := by
        simp [encodeLabel, hrest, List.append_assoc]
      rw [hbuf]
      set buf := pre ++ (l.length % 256) :: (l ++ (rest ++ (0 :: post))) with hbufdef
      have hlenbuf : buf.length = pre.length + 1 + l.length + rest.length + 1 + post.length := by
        simp [hbufdef, List.length_append]
        omega
      have hb : byteAt buf pre.length = .ok l.length := by
        unfold byteAt
        rw [if_pos (by omega), hbufdef, getD_append_self, hmod]
      have hlabel : (buf.drop (pre.length + 1)).take l.length = l := by
        have hd : buf.drop (pre.length + 1) = l ++ (rest ++ (0 :: post)) := by
          have : buf = (pre ++ [l.length % 256]) ++ (l ++ (rest ++ (0 :: post))) := by
            simp [hbufdef]
          rw [this]
          have hlen2 : pre.length + 1 = (pre ++ [l.length % 256]).length := by simp
          rw [hlen2, List.drop_left]
        rw [hd, List.take_left]
      show readDomainNameAux buf pre.length acc (f + 1) = _
      simp only [readDomainNameAux, hb]
      rw [if_neg (fun h0 => hl (List.length_eq_zero.mp h0)),
        if_neg (by rw [land192_eq_zero _ hl63]; decide),
        if_pos (by omega : pre.length + 1 + l.length ≤ buf.length), hlabel]
      have hpre2 : pre.length + 1 + l.length = (pre ++ (l.length % 256) :: l).length := by
        simp; omega
      have hbuf2 : buf = (pre ++ (l.length % 256) :: l) ++ (rest ++ (0 :: post)) := by
        simp [hbufdef, List.append_assoc]
      rw [hpre2, hbuf2, hrest,
        ih (pre ++ (l.length % 256) :: l) ((if acc = [] then [] else acc ++ [46]) ++ l) f
          (fun x hx => hv x (List.mem_cons_of_mem l hx))
          (by simp only [List.length_cons] at hfuel; omega)]
      have hposeq : (pre ++ (l.length % 256) :: l).length +
            ((ls.map encodeLabel).flatten).length + 1 =
          pre.length + (((l :: ls).map encodeLabel).flatten).length + 1 := by
        simp only [List.map_cons, List.flatten_cons, encodeLabel, List.length_append,
          List.length_cons]
        omega
      rw [List.foldl_cons, hposeq]

theorem joinDots_eq_flatten (l : List Nat) (ls : List (List Nat)) :
    joinDots (l :: ls) = l ++ (ls.map (fun x => 46 :: x)).flatten := by
  induction ls generalizing l with
  | nil => simp [joinDots]
  | cons l2 ls2 ih =>
    show l ++ 46 :: joinDots (l2 :: ls2) = _
    rw [ih l2]
    simp

theorem foldlJoin_of_ne (ls : List (List Nat)) (a : List Nat) (ha : a ≠ []) :
    ls.foldl (fun x l => (if x = [] then [] else x ++ [46]) ++ l) a =
      a ++ (ls.map (fun x => 46 :: x)).flatten := by
  induction ls generalizing a with
  | nil => simp
  | cons x ls ih =>
    rw [List.foldl_cons]
    show List.foldl _ ((if a = [] then [] else a ++ [46]) ++ x) ls = _
    rw [if_neg ha, ih ((a ++ [46]) ++ x) (by simp)]
    simp

theorem foldlJoin_nil (ls : List (List Nat)) (h : ∀ l ∈ ls, l ≠ []) :
    ls.foldl (fun x l => (if x = [] then [] else x ++ [46]) ++ l) [] = joinDots ls := by
  cases ls with
  | nil => rfl
  | cons l ls2 =>
    rw [List.foldl_cons]
    show List.foldl _ ((if ([] : List Nat) = [] then [] else [] ++ [46]) ++ l) ls2 = _
    rw [if_pos rfl, List.nil_append,
      foldlJoin_of_ne ls2 l (h l (List.mem_cons_self l ls2)), joinDots_eq_flatten]

theorem labels_le_flatten_length (labels : List (List Nat)) :
    labels.length ≤ ((labels.map encodeLabel).flatten).length := by
  induction labels with
  | nil => simp
  | cons l ls ih =>
    simp only [List.map_cons, List.flatten_cons, List.length_append, List.length_cons,
      encodeLabel]
    omega

/-- C7 counterexample: encoding then decoding the single-label name `A`
gives back `A` unchanged, not its lowercased form `a` — the codec performs
no case folding, so `decodeDomainName (encodeDomainName n) = lowercase n`
fails for any name with an uppercase letter. -/
theorem c7_lowercase_counterexample :
    decodeDomainName (encodeDomainName [65]) = Except.ok [65] ∧ toLowercase [65] ≠ [65] :=
  ⟨rfl, by decide⟩

/-- C7 amended: for every syntactically valid domain name (non-empty labels
of at most 63 bytes, none containing a dot, joined by dots), decoding the
buffer produced by encoding it yields the name **identically** — no
lowercasing happens anywhere in the codec (case folding lives only in the
record store). -/
theorem c7_encode_decode_identity (labels : List (List Nat))
    (h : ∀ l ∈ labels, l ≠ [] ∧ l.length ≤ 63 ∧ 46 ∉ l) :
    decodeDomainName (encodeDomainName (joinDots labels)) = Except.ok (joinDots labels) := by
  have henc : encodeDomainName (joinDots labels) = (labels.map encodeLabel).flatten ++ [0] :=
    encode_joinDots labels (fun l hl => ⟨(h l hl).1, (h l hl).2.2⟩)
  set blocks := (labels.map encodeLabel).flatten with hblocks
  have hlen : labels.length ≤ blocks.length := labels_le_flatten_length labels
  have hread := decode_blocks labels [] [] [] ((blocks ++ [0]).length + 1)
    (fun l hl => ⟨(h l hl).1, (h l hl).2.1⟩)
    (by simp only [List.length_append, List.length_cons, List.length_nil]; omega)
  rw [foldlJoin_nil labels (fun l hl => (h l hl).1)] at hread
  simp only [List.nil_append, List.length_nil] at hread
  unfold decodeDomainName decodeDomainNameAt
  rw [henc, hread]

/-- Witness for C7 amended at the two-label name `www.ab`. -/
theorem c7_encode_decode_identity_witness :
    decodeDomainName (encodeDomainName (joinDots [[119, 119, 119], [97, 98]])) =
      Except.ok (joinDots [[119, 119, 119], [97, 98]]) :=
  c7_encode_decode_identity [[119, 119, 119], [97, 98]] (by decide)

end DNS
